import Mathlib

/-!
Shallow embedding of the subscription-and-payment lifecycle engine of the
xtansion membership bot, translated from `database.py`, `scheduled_tasks.py`,
`utils.py` and the payment handlers under `handlers/`.

Modelling conventions:
* timestamps (`datetime.datetime.now()`, `end_date`, `paid_at`, ...) are
  integers; `datetime.timedelta(days=d)` is the integer `d`, so
  `now + timedelta(days=d)` becomes `now + d`;
* SQL tables are lists of row structures, AUTOINCREMENT columns are a
  `nextId` counter carried next to the rows;
* statuses are the literal strings the code stores (`"pending"`,
  `"active"`, `"confirmed"`, `"expired"`);
* outbound chat messages are recorded in a `sent` list where a claim needs
  them, and dropped otherwise;
* calls into the messaging platform that the code wraps in `try/except`
  are driven by explicit failure oracles, so that "the call raised" is a
  Boolean input of the model.
-/

namespace Xtansion

/-- A row of the `subscriptions` table (`database.py`, `create_tables`). -/
structure Subscription where
  subscription_id : Nat
  user_id : Nat
  end_date : Int
  status : String
deriving DecidableEq, Repr

/-- The `subscriptions` table together with its AUTOINCREMENT counter. -/
structure SubsTable where
  rows : List Subscription
  nextId : Nat
deriving DecidableEq, Repr

/-- The rows selected by `WHERE user_id = ? AND status = 'active'`
(`database.py`, `add_subscription`). -/
def activeSubs (t : List Subscription) (u : Nat) : List Subscription :=
  t.filter (fun s => s.user_id == u && s.status == "active")

/-- Model of `SELECT subscription_id, end_date FROM subscriptions WHERE user_id = ?
AND status = 'active' ORDER BY end_date DESC LIMIT 1`: the first row of
maximal `end_date` among the active rows of `u`. -/
def selectActiveSub (t : List Subscription) (u : Nat) : Option Subscription :=
  (activeSubs t u).foldl
    (fun acc s =>
      match acc with
      | none => some s
      | some best => if best.end_date < s.end_date then some s else some best)
    none

/-- From `database.py`, `add_subscription(user_id, days)`: if an active
subscription exists it is extended — from its current `end_date` when that
is still in the future, from `now` otherwise; else a fresh row ending at
`now + days` is inserted.  Returns the subscription id and the new table. -/
def add_subscription (t : SubsTable) (u : Nat) (days now : Int) : Nat × SubsTable :=
  let end_date := now + days
  match selectActiveSub t.rows u with
  | some sub =>
    let new_end_date := if sub.end_date < now then end_date else sub.end_date + days
    ( sub.subscription_id
    , { t with rows := t.rows.map (fun s =>
          if s.subscription_id == sub.subscription_id then
            { s with end_date := new_end_date }
          else s) } )
  | none =>
    ( t.nextId
    , { rows := t.rows ++
          [{ subscription_id := t.nextId, user_id := u, end_date := end_date,
             status := "active" }]
      , nextId := t.nextId + 1 } )

lemma selectActiveSub_of_singleton {t : List Subscription} {u : Nat}
    {sub : Subscription} (h : activeSubs t u = [sub]) :
    selectActiveSub t u = some sub := by
  unfold selectActiveSub
  rw [h]
  rfl

/-- Updating only `end_date` of rows does not change which rows are the
active rows of `u`. -/
lemma activeSubs_map_endUpdate (t : List Subscription) (u : Nat)
    (f : Subscription → Int) (c : Subscription → Bool) :
    activeSubs (t.map (fun s => if c s then { s with end_date := f s } else s)) u
      = (activeSubs t u).map (fun s => if c s then { s with end_date := f s } else s) := by
  unfold activeSubs
  rw [List.filter_map]
  congr 1
  apply List.filter_congr
  intro s _
  by_cases h : c s <;> simp [h]

/-- C2 and C3 both reduce to this description of `add_subscription` when
`u` has exactly one active row. -/
lemma add_subscription_of_singleton (t : SubsTable) (u : Nat)
    (sub : Subscription) (days now : Int)
    (hact : activeSubs t.rows u = [sub]) :
    activeSubs (add_subscription t u days now).2.rows u
      = [{ sub with
            end_date := if sub.end_date < now then now + days else sub.end_date + days }] := by
  unfold add_subscription
  rw [selectActiveSub_of_singleton hact]
  simp only
  rw [activeSubs_map_endUpdate, hact]
  simp

/-- C2: starting from a single active subscription whose `end_date` is
still in the future, `add_subscription u d1` followed by
`add_subscription u d2` stacks: the final `end_date` is the original
`end_date + d1 + d2`, not a max or a replacement. -/
theorem add_subscription_stacking
    (t : SubsTable) (u : Nat) (sub : Subscription) (d1 d2 now1 now2 : Int)
    (hact : activeSubs t.rows u = [sub])
    (hfut : now1 < sub.end_date)
    (hfut2 : now2 ≤ sub.end_date + d1) :
    activeSubs (add_subscription (add_subscription t u d1 now1).2 u d2 now2).2.rows u
      = [{ sub with end_date := sub.end_date + d1 + d2 }] := by
  have h1 := add_subscription_of_singleton t u sub d1 now1 hact
  rw [if_neg (by omega)] at h1
  have h2 := add_subscription_of_singleton (add_subscription t u d1 now1).2 u
    { sub with end_date := sub.end_date + d1 } d2 now2 h1
  rw [if_neg (by simpa using by omega : ¬ ({ sub with end_date := sub.end_date + d1 } : Subscription).end_date < now2)] at h2
  simpa using h2

/-- Witness for `add_subscription_stacking` at a concrete table. -/
theorem add_subscription_stacking_witness :
    activeSubs (add_subscription
        (add_subscription ⟨[⟨1, 7, 100, "active"⟩], 2⟩ 7 5 0).2 7 9 3).2.rows 7
      = [⟨1, 7, 114, "active"⟩] :=
  add_subscription_stacking ⟨[⟨1, 7, 100, "active"⟩], 2⟩ 7 ⟨1, 7, 100, "active"⟩
    5 9 0 3 (by decide) (by decide) (by decide)

/-- C3: on a stale-active subscription (latest row still `'active'` but
`end_date` already in the past) `add_subscription u d` restarts from `now`:
the row's new `end_date` is `now + d`, not `old end_date + d`. -/
theorem add_subscription_stale_active
    (t : SubsTable) (u : Nat) (sub : Subscription) (d now : Int)
    (hact : activeSubs t.rows u = [sub])
    (hpast : sub.end_date < now) :
    activeSubs (add_subscription t u d now).2.rows u
      = [{ sub with end_date := now + d }] := by
  have h := add_subscription_of_singleton t u sub d now hact
  rwa [if_pos hpast] at h

/-- Witness for `add_subscription_stale_active` at a concrete table. -/
theorem add_subscription_stale_active_witness :
    activeSubs (add_subscription ⟨[⟨1, 7, 10, "active"⟩], 2⟩ 7 30 50).2.rows 7
      = [⟨1, 7, 80, "active"⟩] :=
  add_subscription_stale_active ⟨[⟨1, 7, 10, "active"⟩], 2⟩ 7 ⟨1, 7, 10, "active"⟩
    30 50 (by decide) (by decide)

/-- A row of the `payments` table (`database.py`, `create_tables`). -/
structure Payment where
  payment_id : Nat
  user_id : Nat
  amount : Nat
  product_type : String
  payment_method : String
  status : String
  confirmed_at : Option Int
deriving DecidableEq, Repr

/-- A row of the `crypto_payments` table (`database.py`, `create_tables`). -/
structure CryptoPayment where
  payment_id : Nat
  user_id : Nat
  invoice_id : String
  asset : String
  amount : String
  product_type : String
  status : String
  paid_at : Option Int
deriving DecidableEq, Repr

/-- From `config.py` `PaymentConfig` (prices in roubles, defaults from the
dataclass). -/
structure PaymentConfig where
  club_price : Nat := 1000
  vietnam_tour_price : Nat := 1000
  consultation_price : Nat := 2000
deriving DecidableEq, Repr

/-- The `amount`/`days` fields of `utils.py` `get_payment_description`
(the name and description strings play no role in the claims). -/
structure ProductInfo where
  amount : Nat
  days : Nat
deriving DecidableEq, Repr

/-- From `utils.py`, `get_payment_description(product_type, config)`. -/
def get_payment_description (product_type : String) (config : PaymentConfig) :
    ProductInfo :=
  if product_type == "club" then ⟨config.club_price, 30⟩
  else if product_type == "vietnam" then ⟨config.vietnam_tour_price, 0⟩
  else if product_type == "consultation" then ⟨config.consultation_price, 0⟩
  else ⟨0, 0⟩

/-- From `database.py`, `create_payment`: INSERT with default status `'pending'`. -/
def create_payment (ps : List Payment) (pid u amount : Nat)
    (product_type payment_method : String) : List Payment :=
  ps ++ [⟨pid, u, amount, product_type, payment_method, "pending", none⟩]

/-- From `database.py`, `get_payment`: `SELECT * FROM payments WHERE payment_id = ?`. -/
def get_payment (ps : List Payment) (pid : Nat) : Option Payment :=
  ps.find? (fun p => p.payment_id == pid)

/-- From `database.py`, `confirm_payment`: unconditional
`UPDATE payments SET status = 'confirmed', confirmed_at = ? WHERE payment_id = ?`. -/
def confirm_payment (ps : List Payment) (pid : Nat) (now : Int) : List Payment :=
  ps.map (fun p =>
    if p.payment_id == pid then { p with status := "confirmed", confirmed_at := some now }
    else p)

/-- From `database.py`, `create_crypto_payment`: INSERT with default status
`'pending'`. -/
def create_crypto_payment (cs : List CryptoPayment) (pid u : Nat)
    (invoice_id asset amount product_type : String) : List CryptoPayment :=
  cs ++ [⟨pid, u, invoice_id, asset, amount, product_type, "pending", none⟩]

/-- From `database.py`, `confirm_crypto_payment`: unconditional
`UPDATE crypto_payments SET status = 'confirmed', paid_at = ? WHERE invoice_id = ?`. -/
def confirm_crypto_payment (cs : List CryptoPayment) (invoice_id : String)
    (now : Int) : List CryptoPayment :=
  cs.map (fun c =>
    if c.invoice_id == invoice_id then { c with status := "confirmed", paid_at := some now }
    else c)

/-- From `database.py`, `mark_crypto_payment_expired`: unconditional
`UPDATE crypto_payments SET status = 'expired' WHERE invoice_id = ?`. -/
def mark_crypto_payment_expired (cs : List CryptoPayment) (invoice_id : String) :
    List CryptoPayment :=
  cs.map (fun c => if c.invoice_id == invoice_id then { c with status := "expired" } else c)

/-- From `database.py`, `get_pending_crypto_payments`:
`WHERE cp.status = 'pending'` (the `ORDER BY created_at DESC` only
permutes the processing order and is not modelled). -/
def get_pending_crypto_payments (cs : List CryptoPayment) : List CryptoPayment :=
  cs.filter (fun c => c.status == "pending")

/-- The tables the payment-lifecycle handlers touch. -/
structure LedgerState where
  payments : List Payment
  cryptos : List CryptoPayment
  subs : SubsTable
  nextPayId : Nat
  nextCryptoId : Nat
deriving DecidableEq, Repr

/-- From `handlers/admin.py`, `cmd_confirm_payment` (database effects only):
look the payment up, stop if missing or already confirmed, otherwise
confirm it and, for `product_type == "club"`, add a subscription for the
product's configured day count. -/
def adminConfirmStep (config : PaymentConfig) (st : LedgerState) (pid : Nat)
    (now : Int) : LedgerState :=
  match get_payment st.payments pid with
  | none => st
  | some payment =>
    if payment.status == "confirmed" then st
    else
      let payments := confirm_payment st.payments pid now
      if payment.product_type == "club" then
        { st with
            payments := payments,
            subs := (add_subscription st.subs payment.user_id
              ((get_payment_description payment.product_type config).days : Int) now).2 }
      else { st with payments := payments }

/-- From `handlers/club.py`, `successful_payment_handler` (database effects
only), for a payload `payment_<pid>`: look the payment up, stop if
missing, otherwise confirm it — with no already-confirmed check — and,
for `product_type == "club"`, add a subscription for the product's
configured day count. -/
def platformConfirmStep (config : PaymentConfig) (st : LedgerState) (pid : Nat)
    (now : Int) : LedgerState :=
  match get_payment st.payments pid with
  | none => st
  | some payment =>
    let payments := confirm_payment st.payments pid now
    if payment.product_type == "club" then
      { st with
          payments := payments,
          subs := (add_subscription st.subs payment.user_id
            ((get_payment_description payment.product_type config).days : Int) now).2 }
    else { st with payments := payments }

/-- From `scheduled_tasks.py`, `_check_pending_crypto_payments`, body of the
`for payment in payments` loop for one payment `p`, given the status the
external `crypto_pay.check_invoice(invoice_id)` call reported: `'paid'`
confirms the row (and for club products activates the subscription),
`'expired'` marks the row expired, anything else is skipped. -/
def processCryptoPayment (config : PaymentConfig) (invoiceStatus : String)
    (now : Int) (st : LedgerState) (p : CryptoPayment) : LedgerState :=
  if invoiceStatus == "paid" then
    let cryptos := confirm_crypto_payment st.cryptos p.invoice_id now
    if p.product_type == "club" then
      { st with
          cryptos := cryptos,
          subs := (add_subscription st.subs p.user_id
            ((get_payment_description p.product_type config).days : Int) now).2 }
    else { st with cryptos := cryptos }
  else if invoiceStatus == "expired" then
    { st with cryptos := mark_crypto_payment_expired st.cryptos p.invoice_id }
  else st

/-- From `scheduled_tasks.py`, `_check_pending_crypto_payments`: fetch the
pending rows once and process each in turn; `oracle` gives the status the
external invoice API reports for each invoice id. -/
def checkPendingCryptoPayments (config : PaymentConfig) (oracle : String → String)
    (now : Int) (st : LedgerState) : LedgerState :=
  (get_pending_crypto_payments st.cryptos).foldl
    (fun s p => processCryptoPayment config (oracle p.invoice_id) now s p) st

/-- C1: for a pending crypto payment processed by the poll cycle —
invoice status `'paid'` flips the row to `'confirmed'` and stamps
`paid_at`, and for `product_type = 'club'` extends the user's
subscription by exactly 30 days (and touches no subscription otherwise);
`'expired'` flips the row to `'expired'` and changes no subscription; any
other invoice status leaves the whole state, hence the pending row,
unchanged.  The last conjunct ties the per-row function to the cycle. -/
theorem crypto_poll_pending_transitions
    (config : PaymentConfig) (st : LedgerState) (p : CryptoPayment)
    (invoiceStatus : String) (now : Int)
    (hpend : p.status = "pending") :
    (invoiceStatus = "paid" →
        ∀ q ∈ (processCryptoPayment config invoiceStatus now st p).cryptos,
          q.invoice_id = p.invoice_id → q.status = "confirmed" ∧ q.paid_at = some now)
    ∧ (invoiceStatus = "paid" → p.product_type = "club" →
        ∀ sub, activeSubs st.subs.rows p.user_id = [sub] → now ≤ sub.end_date →
          activeSubs (processCryptoPayment config invoiceStatus now st p).subs.rows p.user_id
            = [{ sub with end_date := sub.end_date + 30 }])
    ∧ (invoiceStatus = "paid" → p.product_type ≠ "club" →
        (processCryptoPayment config invoiceStatus now st p).subs = st.subs)
    ∧ (invoiceStatus = "expired" →
        (∀ q ∈ (processCryptoPayment config invoiceStatus now st p).cryptos,
            q.invoice_id = p.invoice_id → q.status = "expired")
        ∧ (processCryptoPayment config invoiceStatus now st p).subs = st.subs)
    ∧ (invoiceStatus ≠ "paid" → invoiceStatus ≠ "expired" →
        processCryptoPayment config invoiceStatus now st p = st)
    ∧ (∀ oracle : String → String, get_pending_crypto_payments st.cryptos = [p] →
        checkPendingCryptoPayments config oracle now st
          = processCryptoPayment config (oracle p.invoice_id) now st p) := by
  refine ⟨?_, ?_, ?_, ?_, ?_, ?_⟩
  · rintro rfl q hq hqi
    simp only [processCryptoPayment, if_pos rfl] at hq ⊢
    have hq' : q ∈ confirm_crypto_payment st.cryptos p.invoice_id now := by
      by_cases hc : p.product_type == "club" <;> simp [hc] at hq <;> exact hq
    unfold confirm_crypto_payment at hq'
    obtain ⟨c, hc, rfl⟩ := List.mem_map.1 hq'
    by_cases h : c.invoice_id == p.invoice_id
    · simp [h]
    · simp only [if_neg h] at hqi ⊢
      exact absurd (by simpa using hqi) (by simpa using h)
  · rintro rfl hclub sub hact hfut
    simp only [processCryptoPayment, if_pos rfl, hclub]
    simp only [show ("club" == "club") = true from rfl, if_pos rfl]
    have h := add_subscription_of_singleton st.subs p.user_id sub
      ((get_payment_description "club" config).days : Int) now hact
    rw [if_neg (by omega)] at h
    simpa [get_payment_description] using h
  · rintro rfl hclub
    simp [processCryptoPayment, hclub]
  · rintro rfl
    constructor
    · intro q hq hqi
      simp only [processCryptoPayment] at hq
      norm_num at hq
      unfold mark_crypto_payment_expired at hq
      obtain ⟨c, hc, rfl⟩ := List.mem_map.1 hq
      by_cases h : c.invoice_id == p.invoice_id
      · simp [h]
      · simp only [if_neg h] at hqi ⊢
        exact absurd (by simpa using hqi) (by simpa using h)
    · simp [processCryptoPayment]
  · intro h1 h2
    simp [processCryptoPayment, h1, h2]
  · intro oracle hsnap
    unfold checkPendingCryptoPayments
    rw [hsnap]
    rfl

/-- Witness for `crypto_poll_pending_transitions`: one pending club
crypto payment, invoice reported `'paid'`. -/
theorem crypto_poll_pending_transitions_witness :
    let p : CryptoPayment := ⟨1, 7, "inv1", "USDT", "13.333333", "club", "pending", none⟩
    let st : LedgerState :=
      { payments := [], cryptos := [p], subs := ⟨[⟨1, 7, 100, "active"⟩], 2⟩
      , nextPayId := 1, nextCryptoId := 2 }
    ("paid" = "paid" →
        ∀ q ∈ (processCryptoPayment {} "paid" 5 st p).cryptos,
          q.invoice_id = p.invoice_id → q.status = "confirmed" ∧ q.paid_at = some 5)
    ∧ ("paid" = "paid" → p.product_type = "club" →
        ∀ sub, activeSubs st.subs.rows p.user_id = [sub] → (5 : Int) ≤ sub.end_date →
          activeSubs (processCryptoPayment {} "paid" 5 st p).subs.rows p.user_id
            = [{ sub with end_date := sub.end_date + 30 }])
    ∧ ("paid" = "paid" → p.product_type ≠ "club" →
        (processCryptoPayment {} "paid" 5 st p).subs = st.subs)
    ∧ ("paid" = "expired" →
        (∀ q ∈ (processCryptoPayment {} "paid" 5 st p).cryptos,
            q.invoice_id = p.invoice_id → q.status = "expired")
        ∧ (processCryptoPayment {} "paid" 5 st p).subs = st.subs)
    ∧ ("paid" ≠ "paid" → "paid" ≠ "expired" →
        processCryptoPayment {} "paid" 5 st p = st)
    ∧ (∀ oracle : String → String, get_pending_crypto_payments st.cryptos = [p] →
        checkPendingCryptoPayments {} oracle 5 st
          = processCryptoPayment {} (oracle p.invoice_id) 5 st p) :=
  crypto_poll_pending_transitions {} _ _ "paid" 5 (by decide)

/-- C4 counterexample: a `payments` row that is already `'confirmed'`
(with `confirmed_at = 0`) is processed again by the platform
successful-payment callback; the callback has no already-confirmed guard,
so it overwrites the row (`confirmed_at` becomes the new time) and
re-runs fulfillment (the club subscription is extended a second time). -/
theorem confirmed_exactly_once_counterexample :
    let st : LedgerState :=
      { payments := [⟨1, 7, 1000, "club", "stars", "confirmed", some 0⟩]
      , cryptos := [], subs := ⟨[⟨1, 7, 100, "active"⟩], 2⟩
      , nextPayId := 2, nextCryptoId := 1 }
    (platformConfirmStep {} st 1 5).payments ≠ st.payments
    ∧ (platformConfirmStep {} st 1 5).subs ≠ st.subs := by
  decide

/-- C4 amended: only the admin confirm command checks for an
already-confirmed payment: on such a payment it changes nothing and
dispatches no fulfillment, while the platform successful-payment callback
performs its confirmation and fulfillment unconditionally. -/
theorem admin_confirm_noop_on_confirmed
    (config : PaymentConfig) (st : LedgerState) (pid : Nat) (now : Int)
    (payment : Payment)
    (hget : get_payment st.payments pid = some payment)
    (hconf : payment.status = "confirmed") :
    adminConfirmStep config st pid now = st := by
  unfold adminConfirmStep
  rw [hget]
  simp [hconf]

/-- Witness for `admin_confirm_noop_on_confirmed`. -/
theorem admin_confirm_noop_on_confirmed_witness :
    adminConfirmStep {}
      { payments := [⟨1, 7, 1000, "club", "stars", "confirmed", some 0⟩]
      , cryptos := [], subs := ⟨[⟨1, 7, 100, "active"⟩], 2⟩
      , nextPayId := 2, nextCryptoId := 1 } 1 5
      = { payments := [⟨1, 7, 1000, "club", "stars", "confirmed", some 0⟩]
        , cryptos := [], subs := ⟨[⟨1, 7, 100, "active"⟩], 2⟩
        , nextPayId := 2, nextCryptoId := 1 } :=
  admin_confirm_noop_on_confirmed {} _ 1 5
    ⟨1, 7, 1000, "club", "stars", "confirmed", some 0⟩ (by decide) (by decide)

/-- A row of the `users` table (the fields the claims need). -/
structure UserRow where
  user_id : Nat
  balance : Int
deriving DecidableEq, Repr

/-- A row of the `referrals` table (`join_date` plays no role). -/
structure Referral where
  referral_id : Nat
  user_id : Nat
  referrer_id : Nat
  is_active : Bool
deriving DecidableEq, Repr

/-- The `referrals` table with its AUTOINCREMENT counter (SQLite row ids
start at 1, so a live table always has `nextId ≥ 1`). -/
structure RefTable where
  rows : List Referral
  nextId : Nat
deriving DecidableEq, Repr

/-- From `config.py` `ReferralConfig` (defaults from the dataclass). -/
structure ReferralConfig where
  points_per_referral : Int := 1000
  free_days : Int := 7
deriving DecidableEq, Repr

/-- From `database.py`, `get_user` (balance view). -/
def get_user (users : List UserRow) (u : Nat) : Option UserRow :=
  users.find? (fun x => x.user_id == u)

/-- From `database.py`, `update_user_balance`:
`UPDATE users SET balance = balance + ? WHERE user_id = ?`. -/
def update_user_balance (users : List UserRow) (u : Nat) (amount : Int) :
    List UserRow :=
  users.map (fun x => if x.user_id == u then { x with balance := x.balance + amount } else x)

/-- From `database.py`, `add_referral`: lookup-before-insert guard — any
existing edge for the invitee returns `0` and inserts nothing. -/
def add_referral (t : RefTable) (user_id referrer_id : Nat) : Nat × RefTable :=
  if t.rows.any (fun r => r.user_id == user_id) then (0, t)
  else
    ( t.nextId
    , { rows := t.rows ++ [⟨t.nextId, user_id, referrer_id, true⟩]
      , nextId := t.nextId + 1 } )

/-- From `database.py`, `count_user_referrals`:
`COUNT(*) WHERE referrer_id = ? AND is_active = 1`. -/
def count_user_referrals (rows : List Referral) (u : Nat) : Nat :=
  (rows.filter (fun r => r.referrer_id == u && r.is_active)).length

/-- The tables the `/start` referral flow touches, plus the record of
notifications it sent (tagged by recipient). -/
structure RefState where
  users : List UserRow
  referrals : RefTable
  subs : SubsTable
  sent : List (Nat × String)
deriving DecidableEq, Repr

/-- From `handlers/start.py`, `check_referrer_bonuses`: recount the referrer's
active referrals; at exactly 3 or 10 only send a notification, at exactly
5 also grant a 30-day subscription, otherwise do nothing.  A missing
referrer row returns early. -/
def check_referrer_bonuses (st : RefState) (referrer_id : Nat) (now : Int) :
    RefState :=
  let c := count_user_referrals st.referrals.rows referrer_id
  match get_user st.users referrer_id with
  | none => st
  | some _ =>
    if c == 3 then { st with sent := st.sent ++ [(referrer_id, "milestone3")] }
    else if c == 5 then
      { st with
          subs := (add_subscription st.subs referrer_id 30 now).2,
          sent := st.sent ++ [(referrer_id, "milestone5")] }
    else if c == 10 then { st with sent := st.sent ++ [(referrer_id, "milestone10")] }
    else st

/-- From `handlers/start.py`, `cmd_start`, the referral branch (after
`add_user`, which only upserts profile fields): `referrer_id` is the
result of `extract_referrer_id`; `0` is falsy in Python's
`if referrer_id and referrer_id != user_id`.  On a first-time referral
the referrer's balance is credited, the invitee gets the configured free
days, both are messaged, and the milestone check runs. -/
def cmdStartReferralFlow (config : ReferralConfig) (st : RefState)
    (user_id : Nat) (referrer_id : Option Nat) (now : Int) : RefState :=
  match referrer_id with
  | none => st
  | some rid =>
    if rid ≠ 0 ∧ rid ≠ user_id then
      match get_user st.users rid with
      | none => st
      | some _ =>
        let res := add_referral st.referrals user_id rid
        if res.1 > 0 then
          let st1 : RefState :=
            { users := update_user_balance st.users rid config.points_per_referral
            , referrals := res.2
            , subs := (add_subscription st.subs user_id config.free_days now).2
            , sent := st.sent ++ [(rid, "referral_joined"), (user_id, "welcome_referred")] }
          check_referrer_bonuses st1 rid now
        else { st with referrals := res.2 }
    else st

/-- C6: an invitee who already has a referral edge makes `add_referral`
return `0` with no insert, and the whole `/start` referral flow is a
no-op: the referrer's balance, referral count, the subscriptions and the
sent notifications are all unchanged. -/
theorem add_referral_second_call_noop
    (config : ReferralConfig) (st : RefState) (invitee rid : Nat) (now : Int)
    (h : ∃ r ∈ st.referrals.rows, r.user_id = invitee) :
    (add_referral st.referrals invitee rid).1 = 0
    ∧ (add_referral st.referrals invitee rid).2 = st.referrals
    ∧ cmdStartReferralFlow config st invitee (some rid) now = st := by
  have hany : st.referrals.rows.any (fun r => r.user_id == invitee) = true := by
    obtain ⟨r, hrmem, hru⟩ := h
    exact List.any_eq_true.2 ⟨r, hrmem, by simpa using hru⟩
  refine ⟨by simp [add_referral, hany], by simp [add_referral, hany], ?_⟩
  unfold cmdStartReferralFlow
  by_cases hc : rid ≠ 0 ∧ rid ≠ invitee
  · cases hu : get_user st.users rid with
    | none => simp [hc, hu]
    | some u => simp [hc, hu, add_referral, hany]
  · simp [hc]

/-- Witness for `add_referral_second_call_noop`: invitee 9 already
referred by 7. -/
theorem add_referral_second_call_noop_witness :
    let st : RefState :=
      { users := [⟨7, 1000⟩, ⟨9, 0⟩]
      , referrals := ⟨[⟨1, 9, 7, true⟩], 2⟩
      , subs := ⟨[⟨1, 9, 40, "active"⟩], 2⟩
      , sent := [] }
    (add_referral st.referrals 9 7).1 = 0
    ∧ (add_referral st.referrals 9 7).2 = st.referrals
    ∧ cmdStartReferralFlow {} st 9 (some 7) 3 = st :=
  add_referral_second_call_noop {} _ 9 7 3 (by decide)

lemma selectActiveSub_of_nil {t : List Subscription} {u : Nat}
    (h : activeSubs t u = []) : selectActiveSub t u = none := by
  unfold selectActiveSub
  rw [h]
  rfl

/-- Fresh-row case of `add_subscription`: no active row means a new row
ending at `now + days` is appended. -/
lemma add_subscription_of_no_active (t : SubsTable) (u : Nat) (days now : Int)
    (h : activeSubs t.rows u = []) :
    (add_subscription t u days now).2.rows
      = t.rows ++ [⟨t.nextId, u, now + days, "active"⟩] := by
  unfold add_subscription
  rw [selectActiveSub_of_nil h]

/-- C7: with the referrer present, the milestone check fires on exact
counts only — at 5 it grants 30 days (shown both for a single still-live
active row, which is extended by exactly 30 days, and for no active row,
which gets a fresh 30-day row) and notifies; at 3 and 10 it only
notifies, changing no table; at any other count it does nothing. -/
theorem referral_milestones
    (st : RefState) (rid : Nat) (now : Int) (u : UserRow)
    (huser : get_user st.users rid = some u) :
    (count_user_referrals st.referrals.rows rid = 3 →
        check_referrer_bonuses st rid now
          = { st with sent := st.sent ++ [(rid, "milestone3")] })
    ∧ (count_user_referrals st.referrals.rows rid = 5 →
        (∀ sub, activeSubs st.subs.rows rid = [sub] → now ≤ sub.end_date →
          activeSubs (check_referrer_bonuses st rid now).subs.rows rid
            = [{ sub with end_date := sub.end_date + 30 }])
        ∧ (activeSubs st.subs.rows rid = [] →
            (check_referrer_bonuses st rid now).subs.rows
              = st.subs.rows ++ [⟨st.subs.nextId, rid, now + 30, "active"⟩])
        ∧ (check_referrer_bonuses st rid now).sent = st.sent ++ [(rid, "milestone5")]
        ∧ (check_referrer_bonuses st rid now).users = st.users
        ∧ (check_referrer_bonuses st rid now).referrals = st.referrals)
    ∧ (count_user_referrals st.referrals.rows rid = 10 →
        check_referrer_bonuses st rid now
          = { st with sent := st.sent ++ [(rid, "milestone10")] })
    ∧ (count_user_referrals st.referrals.rows rid ∉ ([3, 5, 10] : List Nat) →
        check_referrer_bonuses st rid now = st) := by
  refine ⟨?_, ?_, ?_, ?_⟩
  · intro h3
    unfold check_referrer_bonuses
    rw [huser]
    simp [h3]
  · intro h5
    have hstep : check_referrer_bonuses st rid now
        = { st with
              subs := (add_subscription st.subs rid 30 now).2,
              sent := st.sent ++ [(rid, "milestone5")] } := by
      unfold check_referrer_bonuses
      rw [huser]
      simp [h5]
    refine ⟨?_, ?_, by rw [hstep], by rw [hstep], by rw [hstep]⟩
    · intro sub hact hfut
      rw [hstep]
      have h := add_subscription_of_singleton st.subs rid sub 30 now hact
      rwa [if_neg (by omega)] at h
    · intro hact
      rw [hstep]
      exact add_subscription_of_no_active st.subs rid 30 now hact
  · intro h10
    unfold check_referrer_bonuses
    rw [huser]
    simp [h10]
  · intro hother
    unfold check_referrer_bonuses
    rw [huser]
    simp only [List.mem_cons, List.mem_singleton] at hother
    push_neg at hother
    simp [hother.1, hother.2.1, hother.2.2]

/-- Witness for `referral_milestones`: referrer 7 with five active
referral edges. -/
theorem referral_milestones_witness :
    let st : RefState :=
      { users := [⟨7, 5000⟩]
      , referrals := ⟨[⟨1, 11, 7, true⟩, ⟨2, 12, 7, true⟩, ⟨3, 13, 7, true⟩,
                       ⟨4, 14, 7, true⟩, ⟨5, 15, 7, true⟩], 6⟩
      , subs := ⟨[⟨1, 7, 100, "active"⟩], 2⟩
      , sent := [] }
    (count_user_referrals st.referrals.rows 7 = 3 →
        check_referrer_bonuses st 7 4
          = { st with sent := st.sent ++ [(7, "milestone3")] })
    ∧ (count_user_referrals st.referrals.rows 7 = 5 →
        (∀ sub, activeSubs st.subs.rows 7 = [sub] → (4 : Int) ≤ sub.end_date →
          activeSubs (check_referrer_bonuses st 7 4).subs.rows 7
            = [{ sub with end_date := sub.end_date + 30 }])
        ∧ (activeSubs st.subs.rows 7 = [] →
            (check_referrer_bonuses st 7 4).subs.rows
              = st.subs.rows ++ [⟨st.subs.nextId, 7, 4 + 30, "active"⟩])
        ∧ (check_referrer_bonuses st 7 4).sent = st.sent ++ [(7, "milestone5")]
        ∧ (check_referrer_bonuses st 7 4).users = st.users
        ∧ (check_referrer_bonuses st 7 4).referrals = st.referrals)
    ∧ (count_user_referrals st.referrals.rows 7 = 10 →
        check_referrer_bonuses st 7 4
          = { st with sent := st.sent ++ [(7, "milestone10")] })
    ∧ (count_user_referrals st.referrals.rows 7 ∉ ([3, 5, 10] : List Nat) →
        check_referrer_bonuses st 7 4 = st) :=
  referral_milestones _ 7 4 ⟨7, 5000⟩ (by decide)

/-- From `database.py`, `get_expired_subscriptions`: rows `WHERE status =
'active' AND end_date < now` (the user-profile join adds columns the
sweep only uses for messages). -/
def get_expired_subscriptions (rows : List Subscription) (now : Int) :
    List Subscription :=
  rows.filter (fun s => s.status == "active" && decide (s.end_date < now))

/-- From `database.py`, `deactivate_subscription`:
`UPDATE subscriptions SET status = 'expired' WHERE subscription_id = ?`. -/
def deactivate_subscription (rows : List Subscription) (sid : Nat) :
    List Subscription :=
  rows.map (fun s => if s.subscription_id == sid then { s with status := "expired" } else s)

/-- From `utils.py`, `kick_user_from_group`: wraps `bot.ban_chat_member` in
its own try/except and returns a success Bool — it never raises itself;
`banRaises` says for which user ids the platform call raises. -/
def kick_user_from_group (banRaises : Nat → Bool) (user_id : Nat) : Bool :=
  !banRaises user_id

/-- State of the expiry sweep: the `subscriptions` table and the users a
notification was delivered to. -/
structure SweepState where
  subs : List Subscription
  notified : List Nat
deriving DecidableEq, Repr

/-- From `scheduled_tasks.py`, `_check_expired_subscriptions`, body of the row
loop: inside the per-row try block the subscription is deactivated first,
then the kick wrapper runs (it cannot raise), then the notification is
sent; `bot.send_message` raising (oracle `sendRaises`) is caught by the
per-row except, losing only that row's notification. -/
def processExpiredRow (banRaises sendRaises : Nat → Bool) (st : SweepState)
    (sub : Subscription) : SweepState :=
  let subs := deactivate_subscription st.subs sub.subscription_id
  let _kick_result := kick_user_from_group banRaises sub.user_id
  if sendRaises sub.user_id then { subs := subs, notified := st.notified }
  else { subs := subs, notified := st.notified ++ [sub.user_id] }

/-- From `scheduled_tasks.py`, `_check_expired_subscriptions`: snapshot the
due rows, then process each independently. -/
def checkExpiredSubscriptions (banRaises sendRaises : Nat → Bool)
    (st : SweepState) (now : Int) : SweepState :=
  (get_expired_subscriptions st.subs now).foldl
    (processExpiredRow banRaises sendRaises) st

lemma processExpiredRow_preserves_expired (banRaises sendRaises : Nat → Bool)
    (st : SweepState) (r : Subscription) (sid : Nat)
    (h : ∀ s ∈ st.subs, s.subscription_id = sid → s.status = "expired") :
    ∀ s ∈ (processExpiredRow banRaises sendRaises st r).subs,
      s.subscription_id = sid → s.status = "expired" := by
  intro s hs hsid
  have hs' : s ∈ deactivate_subscription st.subs r.subscription_id := by
    unfold processExpiredRow at hs
    by_cases hraise : sendRaises r.user_id <;> simp [hraise] at hs <;> exact hs
  unfold deactivate_subscription at hs'
  obtain ⟨a, ha, haeq⟩ := List.mem_map.1 hs'
  by_cases hid : a.subscription_id == r.subscription_id
  · rw [← haeq]
    simp [hid]
  · rw [if_neg hid] at haeq
    exact h s (haeq ▸ ha) hsid

lemma sweep_preserves_expired (banRaises sendRaises : Nat → Bool)
    (l : List Subscription) (st : SweepState) (sid : Nat)
    (h : ∀ s ∈ st.subs, s.subscription_id = sid → s.status = "expired") :
    ∀ s ∈ (l.foldl (processExpiredRow banRaises sendRaises) st).subs,
      s.subscription_id = sid → s.status = "expired" := by
  induction l generalizing st with
  | nil => exact h
  | cons a l ih =>
    exact ih (processExpiredRow banRaises sendRaises st a)
      (processExpiredRow_preserves_expired banRaises sendRaises st a sid h)

lemma processExpiredRow_expires (banRaises sendRaises : Nat → Bool)
    (st : SweepState) (r : Subscription) :
    ∀ s ∈ (processExpiredRow banRaises sendRaises st r).subs,
      s.subscription_id = r.subscription_id → s.status = "expired" := by
  intro s hs hsid
  have hs' : s ∈ deactivate_subscription st.subs r.subscription_id := by
    unfold processExpiredRow at hs
    by_cases hraise : sendRaises r.user_id <;> simp [hraise] at hs <;> exact hs
  unfold deactivate_subscription at hs'
  obtain ⟨a, ha, haeq⟩ := List.mem_map.1 hs'
  by_cases hid : a.subscription_id == r.subscription_id
  · rw [← haeq]
    simp [hid]
  · rw [if_neg hid] at haeq
    exact absurd (by simpa using haeq ▸ hsid) (by simpa using hid)

lemma processExpiredRow_notified_mono (banRaises sendRaises : Nat → Bool)
    (st : SweepState) (r : Subscription) (u : Nat) (h : u ∈ st.notified) :
    u ∈ (processExpiredRow banRaises sendRaises st r).notified := by
  unfold processExpiredRow
  by_cases hraise : sendRaises r.user_id <;> simp [hraise, h]

lemma sweep_notified_mono (banRaises sendRaises : Nat → Bool)
    (l : List Subscription) (st : SweepState) (u : Nat) (h : u ∈ st.notified) :
    u ∈ (l.foldl (processExpiredRow banRaises sendRaises) st).notified := by
  induction l generalizing st with
  | nil => exact h
  | cons a l ih =>
    exact ih _ (processExpiredRow_notified_mono banRaises sendRaises st a u h)

lemma sweep_expires_of_mem (banRaises sendRaises : Nat → Bool) :
    ∀ (l : List Subscription) (st : SweepState) (r : Subscription), r ∈ l →
      ∀ s ∈ (l.foldl (processExpiredRow banRaises sendRaises) st).subs,
        s.subscription_id = r.subscription_id → s.status = "expired" := by
  intro l
  induction l with
  | nil =>
    intro st r hr
    cases hr
  | cons a l ih =>
    intro st r hr
    rcases List.mem_cons.1 hr with rfl | hmem
    · exact fun s hs =>
        sweep_preserves_expired banRaises sendRaises l _ r.subscription_id
          (processExpiredRow_expires banRaises sendRaises st r) s hs
    · exact ih _ r hmem

lemma sweep_notifies_of_mem (banRaises sendRaises : Nat → Bool) :
    ∀ (l : List Subscription) (st : SweepState) (r : Subscription), r ∈ l →
      sendRaises r.user_id = false →
      r.user_id ∈ (l.foldl (processExpiredRow banRaises sendRaises) st).notified := by
  intro l
  induction l with
  | nil =>
    intro st r hr _
    cases hr
  | cons a l ih =>
    intro st r hr hsend
    rcases List.mem_cons.1 hr with rfl | hmem
    · rw [List.foldl_cons]
      apply sweep_notified_mono
      unfold processExpiredRow
      simp [hsend]
    · exact ih _ r hmem hsend

/-- C8: however the access-revocation and notification calls fail per
user (oracles `banRaises`, `sendRaises`), every row due at sweep time is
deactivated, and every due row whose own notification call does not raise
has its user notified — in particular a row whose revocation call raises
blocks nothing (the kick wrapper catches the error, so even that row is
still deactivated and notified). -/
theorem expiry_sweep_isolated (banRaises sendRaises : Nat → Bool)
    (st : SweepState) (now : Int) (r : Subscription)
    (hr : r ∈ get_expired_subscriptions st.subs now) :
    (∀ s ∈ (checkExpiredSubscriptions banRaises sendRaises st now).subs,
        s.subscription_id = r.subscription_id → s.status = "expired")
    ∧ (sendRaises r.user_id = false →
        r.user_id ∈ (checkExpiredSubscriptions banRaises sendRaises st now).notified) := by
  unfold checkExpiredSubscriptions
  exact ⟨sweep_expires_of_mem banRaises sendRaises _ st r hr,
    fun hsend => sweep_notifies_of_mem banRaises sendRaises _ st r hr hsend⟩

/-- Witness for `expiry_sweep_isolated`: two due rows; the revocation
call raises for user 7, row 2 (user 8) is the "other" row. -/
theorem expiry_sweep_isolated_witness :
    let st : SweepState := ⟨[⟨1, 7, -5, "active"⟩, ⟨2, 8, -3, "active"⟩], []⟩
    let banRaises : Nat → Bool := fun u => u == 7
    let sendRaises : Nat → Bool := fun _ => false
    (∀ s ∈ (checkExpiredSubscriptions banRaises sendRaises st 0).subs,
        s.subscription_id = 2 → s.status = "expired")
    ∧ (sendRaises 8 = false →
        8 ∈ (checkExpiredSubscriptions banRaises sendRaises st 0).notified) :=
  expiry_sweep_isolated _ _ _ 0 ⟨2, 8, -3, "active"⟩ (by decide)

/-- Truncation toward zero: the effect of Python `int()` on a number. -/
def truncQ (q : ℚ) : Int := if q < 0 then ⌈q⌉ else ⌊q⌋

/-- From `handlers/club.py`, `callback_pay_method`, `stars` branch:
`stars_amount = int(amount * 0.75)`.  The float arithmetic is modelled
exactly over ℚ (0.75 is a dyadic rational and these products are exact in
double precision for every representable price). -/
def stars_amount (amount : Nat) : Int := truncQ ((amount : ℚ) * 0.75)

/-- From `handlers/crypto.py`, `callback_crypto_asset`: the static rate table
`crypto_rates` (USD per unit of asset); any other asset makes the Python
dict lookup raise, hence `Option`. -/
def crypto_rates (asset : String) : Option Nat :=
  if asset == "BTC" then some 60000
  else if asset == "ETH" then some 30000
  else if asset == "USDT" then some 1
  else none

/-- From `handlers/crypto.py`: `rub_to_usd = 1 / 75.0`. -/
def rub_to_usd : ℚ := 1 / 75

/-- From `handlers/crypto.py`: `amount_usd = payment_info["amount"] *
rub_to_usd; amount_crypto = amount_usd / crypto_rates[asset]` (float
arithmetic modelled over ℚ). -/
def amount_crypto (amount : Nat) (rate : Nat) : ℚ :=
  ((amount : ℚ) * rub_to_usd) / rate

/-- Rendering: `"{:.6f}".format(x)` displays `x` to six decimal places, rounding half
to even; `render6 q` is the integer `n` such that the rendered string
denotes `n / 10^6`. -/
def render6 (q : ℚ) : Int :=
  let scaled := q * 1000000
  if scaled - ⌊scaled⌋ < 1 / 2 then ⌊scaled⌋
  else if 1 / 2 < scaled - ⌊scaled⌋ then ⌊scaled⌋ + 1
  else if Even ⌊scaled⌋ then ⌊scaled⌋ else ⌊scaled⌋ + 1

/-- C9: the Stars amount the code charges is `floor(amount * 0.75)`
(Python's `int` truncation coincides with floor on these non-negative
amounts), and the crypto amount the code computes and renders to six
decimal places equals `(amount / 75.0) / asset_usd_rate` rendered the
same way, with the rate drawn from the static table. -/
theorem pricing_conversion (amount : Nat) (asset : String) (rate : Nat)
    (hrate : crypto_rates asset = some rate) :
    stars_amount amount = ⌊(amount : ℚ) * 0.75⌋
    ∧ render6 (amount_crypto amount rate) = render6 (((amount : ℚ) / 75) / rate) := by
  constructor
  · unfold stars_amount truncQ
    rw [if_neg (not_lt.2 (by positivity))]
  · unfold amount_crypto rub_to_usd
    rw [mul_one_div]

/-- Witness for `pricing_conversion`: the club price, paid in BTC. -/
theorem pricing_conversion_witness :
    stars_amount 1000 = ⌊(1000 : ℚ) * 0.75⌋
    ∧ render6 (amount_crypto 1000 60000) = render6 (((1000 : ℚ) / 75) / 60000) :=
  pricing_conversion 1000 "BTC" 60000 (by decide)

/-! Payment-status state machine (C5).  The events below are the only
places in the code base that mutate `payments.status` or
`crypto_payments.status`: row creation (`create_payment`,
`create_crypto_payment`), the admin confirm command
(`handlers/admin.py`), the platform successful-payment callback
(`handlers/club.py`), and the crypto poll cycle (`scheduled_tasks.py`). -/

/-- A payment-lifecycle operation. -/
inductive PayOp where
  | createPay (user amount : Nat) (product_type payment_method : String)
  | createCrypto (user : Nat) (invoice_id asset amount product_type : String)
  | adminConfirm (pid : Nat) (now : Int)
  | platformConfirm (pid : Nat) (now : Int)
  | pollCrypto (oracle : String → String) (now : Int)

/-- The effect of one payment-lifecycle operation on the ledger. -/
def payStep (config : PaymentConfig) (st : LedgerState) : PayOp → LedgerState
  | .createPay u amount t m =>
      { st with
          payments := create_payment st.payments st.nextPayId u amount t m,
          nextPayId := st.nextPayId + 1 }
  | .createCrypto u inv a amount t =>
      { st with
          cryptos := create_crypto_payment st.cryptos st.nextCryptoId u inv a amount t,
          nextCryptoId := st.nextCryptoId + 1 }
  | .adminConfirm pid now => adminConfirmStep config st pid now
  | .platformConfirm pid now => platformConfirmStep config st pid now
  | .pollCrypto oracle now => checkPendingCryptoPayments config oracle now st

/-- Environment guarantee: the external Crypto Bot API issues a fresh
`invoice_id` for every created invoice, so a crypto row is only ever
created with an invoice id no existing row carries. -/
def Admissible (st : LedgerState) : PayOp → Prop
  | .createCrypto _ inv _ _ _ => ∀ c ∈ st.cryptos, c.invoice_id ≠ inv
  | _ => True

/-- Freshly created database (SQLite AUTOINCREMENT starts at 1). -/
def initLedger : LedgerState :=
  { payments := [], cryptos := [], subs := ⟨[], 1⟩, nextPayId := 1, nextCryptoId := 1 }

/-- Ledger states reachable by payment-lifecycle operations. -/
inductive ReachableLedger (config : PaymentConfig) : LedgerState → Prop
  | init : ReachableLedger config initLedger
  | step (st : LedgerState) (op : PayOp) (h : ReachableLedger config st)
      (hop : Admissible st op) : ReachableLedger config (payStep config st op)

/-- A single row's status either stays put or leaves `'pending'`; this
forbids every backward move (`confirmed`/`expired` back to `pending`) and
every terminal-to-terminal move (`confirmed` to `expired` or back). -/
def statusStep (a b : String) : Prop := a = b ∨ a = "pending"

/-- Tables only grow and each existing row's status makes a
`statusStep`. -/
def ForwardOn {α : Type} (stat : α → String) (old new : List α) : Prop :=
  old.length ≤ new.length
  ∧ ∀ (i : Nat) (a b : α), old[i]? = some a → new[i]? = some b →
      statusStep (stat a) (stat b)

lemma statusStep_trans {a b c : String} (h1 : statusStep a b)
    (h2 : statusStep b c) : statusStep a c := by
  rcases h1 with rfl | rfl
  · exact h2
  · right
    rfl

lemma forwardOn_refl {α : Type} (stat : α → String) (l : List α) :
    ForwardOn stat l l := by
  unfold ForwardOn
  constructor
  · exact le_rfl
  · intro i a b h1 h2
    rw [h1, Option.some.injEq] at h2
    subst h2
    left
    rfl

lemma forwardOn_trans {α : Type} {stat : α → String} {l1 l2 l3 : List α}
    (h1 : ForwardOn stat l1 l2) (h2 : ForwardOn stat l2 l3) :
    ForwardOn stat l1 l3 := by
  unfold ForwardOn
  constructor
  · exact h1.1.trans h2.1
  · intro i a c ha hc
    have hi : i < l2.length :=
      lt_of_lt_of_le (List.getElem?_eq_some.1 ha).1 h1.1
    exact statusStep_trans (h1.2 i a _ ha (List.getElem?_eq_getElem hi))
      (h2.2 i _ c (List.getElem?_eq_getElem hi) hc)

lemma forwardOn_map {α : Type} (stat : α → String) (f : α → α) (l : List α)
    (h : ∀ a ∈ l, statusStep (stat a) (stat (f a))) :
    ForwardOn stat l (l.map f) := by
  unfold ForwardOn
  constructor
  · exact le_of_eq (List.length_map l f).symm
  · intro i a b ha hb
    rw [List.getElem?_map f l i, ha, Option.map_some', Option.some.injEq] at hb
    subst hb
    exact h a (List.getElem?_mem ha)

lemma forwardOn_append {α : Type} (stat : α → String) (l l2 : List α) :
    ForwardOn stat l (l ++ l2) := by
  unfold ForwardOn
  constructor
  · simp
  · intro i a b ha hb
    rw [List.getElem?_append_left (List.getElem?_eq_some.1 ha).1, ha,
      Option.some.injEq] at hb
    subst hb
    left
    rfl

/-- All manual/platform payment rows carry one of the two statuses the
code ever writes. -/
def PaymentsWF (ps : List Payment) : Prop :=
  ∀ p ∈ ps, p.status = "pending" ∨ p.status = "confirmed"

/-- Crypto rows carry pairwise distinct external invoice ids. -/
def InvoicesNodup (cs : List CryptoPayment) : Prop :=
  (cs.map (fun c => c.invoice_id)).Nodup

lemma confirm_payment_forward (ps : List Payment) (pid : Nat) (now : Int)
    (hwf : PaymentsWF ps) :
    ForwardOn Payment.status ps (confirm_payment ps pid now) := by
  apply forwardOn_map
  intro a ha
  by_cases hid : a.payment_id == pid
  · rcases hwf a ha with hp | hp
    · right
      exact hp
    · left
      rw [hp]
      simp [hid]
  · left
    simp [hid]

lemma adminConfirmStep_payments (config : PaymentConfig) (st : LedgerState)
    (pid : Nat) (now : Int) :
    (adminConfirmStep config st pid now).payments = st.payments
    ∨ (adminConfirmStep config st pid now).payments = confirm_payment st.payments pid now := by
  unfold adminConfirmStep
  split
  · exact Or.inl rfl
  · split
    · exact Or.inl rfl
    · split
      · exact Or.inr rfl
      · exact Or.inr rfl

lemma adminConfirmStep_cryptos (config : PaymentConfig) (st : LedgerState)
    (pid : Nat) (now : Int) :
    (adminConfirmStep config st pid now).cryptos = st.cryptos := by
  unfold adminConfirmStep
  split
  · rfl
  · split
    · rfl
    · split <;> rfl

lemma platformConfirmStep_payments (config : PaymentConfig) (st : LedgerState)
    (pid : Nat) (now : Int) :
    (platformConfirmStep config st pid now).payments = st.payments
    ∨ (platformConfirmStep config st pid now).payments = confirm_payment st.payments pid now := by
  unfold platformConfirmStep
  split
  · exact Or.inl rfl
  · split
    · exact Or.inr rfl
    · exact Or.inr rfl

lemma platformConfirmStep_cryptos (config : PaymentConfig) (st : LedgerState)
    (pid : Nat) (now : Int) :
    (platformConfirmStep config st pid now).cryptos = st.cryptos := by
  unfold platformConfirmStep
  split
  · rfl
  · split <;> rfl

lemma processCryptoPayment_payments (config : PaymentConfig)
    (invoiceStatus : String) (now : Int) (st : LedgerState) (p : CryptoPayment) :
    (processCryptoPayment config invoiceStatus now st p).payments = st.payments := by
  unfold processCryptoPayment
  split
  · split <;> rfl
  · split <;> rfl

/-- The three possible shapes of the crypto table after one poll item:
untouched, confirmed-by-invoice, or expired-by-invoice. -/
lemma processCryptoPayment_cryptos (config : PaymentConfig)
    (invoiceStatus : String) (now : Int) (st : LedgerState) (p : CryptoPayment) :
    (processCryptoPayment config invoiceStatus now st p).cryptos = st.cryptos
    ∨ (processCryptoPayment config invoiceStatus now st p).cryptos
        = confirm_crypto_payment st.cryptos p.invoice_id now
    ∨ (processCryptoPayment config invoiceStatus now st p).cryptos
        = mark_crypto_payment_expired st.cryptos p.invoice_id := by
  unfold processCryptoPayment
  split
  · split
    · exact Or.inr (Or.inl rfl)
    · exact Or.inr (Or.inl rfl)
  · split
    · exact Or.inr (Or.inr rfl)
    · exact Or.inl rfl

lemma updateByInvoice_forwardOn (g : CryptoPayment → CryptoPayment)
    (cs : List CryptoPayment) (inv : String)
    (h : ∀ c ∈ cs, c.invoice_id = inv → c.status = "pending") :
    ForwardOn CryptoPayment.status cs
      (cs.map (fun c => if c.invoice_id == inv then g c else c)) := by
  apply forwardOn_map
  intro a ha
  by_cases hid : a.invoice_id == inv
  · right
    exact h a ha (by simpa using hid)
  · left
    rw [if_neg hid]

lemma updateByInvoice_pending_other (g : CryptoPayment → CryptoPayment)
    (hg : ∀ c, (g c).invoice_id = c.invoice_id)
    (cs : List CryptoPayment) (inv inv2 : String) (hne : inv2 ≠ inv)
    (h : ∀ c ∈ cs, c.invoice_id = inv2 → c.status = "pending") :
    ∀ c ∈ cs.map (fun c => if c.invoice_id == inv then g c else c),
      c.invoice_id = inv2 → c.status = "pending" := by
  intro c hc hcinv
  obtain ⟨a, ha, rfl⟩ := List.mem_map.1 hc
  by_cases hid : a.invoice_id == inv
  · exfalso
    rw [if_pos hid, hg a] at hcinv
    exact hne (hcinv ▸ (by simpa using hid))
  · rw [if_neg hid] at hcinv ⊢
    exact h a ha hcinv

lemma updateByInvoice_invoices (g : CryptoPayment → CryptoPayment)
    (hg : ∀ c, (g c).invoice_id = c.invoice_id)
    (cs : List CryptoPayment) (inv : String) :
    (cs.map (fun c => if c.invoice_id == inv then g c else c)).map
        (fun c => c.invoice_id)
      = cs.map (fun c => c.invoice_id) := by
  rw [List.map_map]
  apply List.map_congr_left
  intro a _
  by_cases hid : a.invoice_id == inv
  · simp only [Function.comp_apply, if_pos hid, hg]
  · simp only [Function.comp_apply, if_neg hid]

lemma confirm_crypto_payment_invoices (cs : List CryptoPayment)
    (inv : String) (now : Int) :
    (confirm_crypto_payment cs inv now).map (fun c => c.invoice_id)
      = cs.map (fun c => c.invoice_id) := by
  unfold confirm_crypto_payment
  exact updateByInvoice_invoices
    (fun c => { c with status := "confirmed", paid_at := some now })
    (fun _ => rfl) cs inv

lemma mark_crypto_payment_expired_invoices (cs : List CryptoPayment)
    (inv : String) :
    (mark_crypto_payment_expired cs inv).map (fun c => c.invoice_id)
      = cs.map (fun c => c.invoice_id) := by
  unfold mark_crypto_payment_expired
  exact updateByInvoice_invoices (fun c => { c with status := "expired" })
    (fun _ => rfl) cs inv

lemma confirm_crypto_payment_forwardOn (cs : List CryptoPayment)
    (inv : String) (now : Int)
    (h : ∀ c ∈ cs, c.invoice_id = inv → c.status = "pending") :
    ForwardOn CryptoPayment.status cs (confirm_crypto_payment cs inv now) := by
  unfold confirm_crypto_payment
  exact updateByInvoice_forwardOn
    (fun c => { c with status := "confirmed", paid_at := some now }) cs inv h

lemma mark_crypto_payment_expired_forwardOn (cs : List CryptoPayment)
    (inv : String)
    (h : ∀ c ∈ cs, c.invoice_id = inv → c.status = "pending") :
    ForwardOn CryptoPayment.status cs (mark_crypto_payment_expired cs inv) := by
  unfold mark_crypto_payment_expired
  exact updateByInvoice_forwardOn (fun c => { c with status := "expired" }) cs inv h

lemma confirm_crypto_payment_pending_other (cs : List CryptoPayment)
    (inv inv2 : String) (now : Int) (hne : inv2 ≠ inv)
    (h : ∀ c ∈ cs, c.invoice_id = inv2 → c.status = "pending") :
    ∀ c ∈ confirm_crypto_payment cs inv now,
      c.invoice_id = inv2 → c.status = "pending" := by
  unfold confirm_crypto_payment
  exact updateByInvoice_pending_other
    (fun c => { c with status := "confirmed", paid_at := some now })
    (fun _ => rfl) cs inv inv2 hne h

lemma mark_crypto_payment_expired_pending_other (cs : List CryptoPayment)
    (inv inv2 : String) (hne : inv2 ≠ inv)
    (h : ∀ c ∈ cs, c.invoice_id = inv2 → c.status = "pending") :
    ∀ c ∈ mark_crypto_payment_expired cs inv,
      c.invoice_id = inv2 → c.status = "pending" := by
  unfold mark_crypto_payment_expired
  exact updateByInvoice_pending_other (fun c => { c with status := "expired" })
    (fun _ => rfl) cs inv inv2 hne h

lemma pollFold_payments (config : PaymentConfig) (oracle : String → String)
    (now : Int) :
    ∀ (l : List CryptoPayment) (st : LedgerState),
      ((l.foldl (fun s p => processCryptoPayment config (oracle p.invoice_id) now s p) st).payments)
        = st.payments := by
  intro l
  induction l with
  | nil => intro st; rfl
  | cons p l ih =>
    intro st
    rw [List.foldl_cons, ih, processCryptoPayment_payments]

lemma pollFold_invoices (config : PaymentConfig) (oracle : String → String)
    (now : Int) :
    ∀ (l : List CryptoPayment) (st : LedgerState),
      ((l.foldl (fun s p => processCryptoPayment config (oracle p.invoice_id) now s p) st).cryptos).map
          (fun c => c.invoice_id)
        = st.cryptos.map (fun c => c.invoice_id) := by
  intro l
  induction l with
  | nil => intro st; rfl
  | cons p l ih =>
    intro st
    rw [List.foldl_cons, ih]
    rcases processCryptoPayment_cryptos config (oracle p.invoice_id) now st p
      with h | h | h <;> rw [h]
    · exact confirm_crypto_payment_invoices _ _ _
    · exact mark_crypto_payment_expired_invoices _ _

lemma pollFold_forward (config : PaymentConfig) (oracle : String → String)
    (now : Int) :
    ∀ (l : List CryptoPayment) (st : LedgerState),
      (∀ p ∈ l, ∀ c ∈ st.cryptos, c.invoice_id = p.invoice_id → c.status = "pending") →
      (l.map (fun p => p.invoice_id)).Nodup →
      ForwardOn CryptoPayment.status st.cryptos
        ((l.foldl (fun s p => processCryptoPayment config (oracle p.invoice_id) now s p) st).cryptos) := by
  intro l
  induction l with
  | nil =>
    intro st _ _
    exact forwardOn_refl _ _
  | cons p l ih =>
    intro st hpend hnodup
    rw [List.map_cons, List.nodup_cons] at hnodup
    rw [List.foldl_cons]
    have step1 : ForwardOn CryptoPayment.status st.cryptos
        (processCryptoPayment config (oracle p.invoice_id) now st p).cryptos := by
      rcases processCryptoPayment_cryptos config (oracle p.invoice_id) now st p
        with h | h | h <;> rw [h]
      · exact forwardOn_refl _ _
      · exact confirm_crypto_payment_forwardOn _ _ _ (hpend p (List.mem_cons_self p l))
      · exact mark_crypto_payment_expired_forwardOn _ _ (hpend p (List.mem_cons_self p l))
    have hpend' : ∀ q ∈ l,
        ∀ c ∈ (processCryptoPayment config (oracle p.invoice_id) now st p).cryptos,
          c.invoice_id = q.invoice_id → c.status = "pending" := by
      intro q hq
      have hqp : q.invoice_id ≠ p.invoice_id := by
        intro he
        apply hnodup.1
        rw [← he]
        exact List.mem_map.2 ⟨q, hq, rfl⟩
      rcases processCryptoPayment_cryptos config (oracle p.invoice_id) now st p
        with h | h | h <;> rw [h]
      · exact hpend q (List.mem_cons_of_mem p hq)
      · exact confirm_crypto_payment_pending_other st.cryptos
          p.invoice_id q.invoice_id now hqp (hpend q (List.mem_cons_of_mem p hq))
      · exact mark_crypto_payment_expired_pending_other st.cryptos
          p.invoice_id q.invoice_id hqp (hpend q (List.mem_cons_of_mem p hq))
    exact forwardOn_trans step1 (ih _ hpend' hnodup.2)

/-- The two data invariants every reachable ledger satisfies. -/
lemma reachable_ledger_invariant (config : PaymentConfig) (st : LedgerState)
    (h : ReachableLedger config st) :
    PaymentsWF st.payments ∧ InvoicesNodup st.cryptos := by
  induction h with
  | init =>
    constructor
    · intro p hp
      cases hp
    · simp [InvoicesNodup, initLedger]
  | step st op hre hop ih =>
    obtain ⟨hwf, hnodup⟩ := ih
    cases op with
    | createPay u amount t m =>
      refine ⟨?_, hnodup⟩
      intro p hp
      rcases List.mem_append.1 hp with hp | hp
      · exact hwf p hp
      · left
        rw [List.mem_singleton.1 hp]
    | createCrypto u inv a amount t =>
      refine ⟨hwf, ?_⟩
      unfold InvoicesNodup at hnodup ⊢
      simp only [payStep, create_crypto_payment, List.map_append, List.map_cons,
        List.map_nil]
      rw [List.nodup_append]
      exact ⟨hnodup, List.nodup_singleton _,
        fun x hx hx2 => by
          obtain ⟨c, hc, rfl⟩ := List.mem_map.1 hx
          exact hop c hc (List.mem_singleton.1 hx2)⟩
    | adminConfirm pid now =>
      constructor
      · rcases adminConfirmStep_payments config st pid now with h | h <;> rw [payStep, h]
        · exact hwf
        · intro p hp
          obtain ⟨a, ha, rfl⟩ := List.mem_map.1 hp
          by_cases hid : a.payment_id == pid
          · right
            simp [hid]
          · rw [if_neg hid]
            exact hwf a ha
      · unfold InvoicesNodup
        rw [payStep, adminConfirmStep_cryptos]
        exact hnodup
    | platformConfirm pid now =>
      constructor
      · rcases platformConfirmStep_payments config st pid now with h | h <;> rw [payStep, h]
        · exact hwf
        · intro p hp
          obtain ⟨a, ha, rfl⟩ := List.mem_map.1 hp
          by_cases hid : a.payment_id == pid
          · right
            simp [hid]
          · rw [if_neg hid]
            exact hwf a ha
      · unfold InvoicesNodup
        rw [payStep, platformConfirmStep_cryptos]
        exact hnodup
    | pollCrypto oracle now =>
      constructor
      · rw [payStep, checkPendingCryptoPayments, pollFold_payments]
        exact hwf
      · unfold InvoicesNodup
        rw [payStep, checkPendingCryptoPayments, pollFold_invoices]
        exact hnodup

/-- C5: along every reachable sequence of payment-lifecycle operations,
every step moves each existing payment row forward only: a manual or
platform payment row either keeps its status or leaves `'pending'` (for
`'confirmed'`), and a crypto row either keeps its status or leaves
`'pending'` (for `'confirmed'` or `'expired'`); no operation moves a
status backward or between the terminal statuses, and rows are never
deleted. -/
theorem payment_status_forward (config : PaymentConfig) (st : LedgerState)
    (op : PayOp) (h : ReachableLedger config st) (hop : Admissible st op) :
    ForwardOn Payment.status st.payments (payStep config st op).payments
    ∧ ForwardOn CryptoPayment.status st.cryptos (payStep config st op).cryptos := by
  obtain ⟨hwf, hnodup⟩ := reachable_ledger_invariant config st h
  cases op with
  | createPay u amount t m =>
    exact ⟨forwardOn_append _ _ _, forwardOn_refl _ _⟩
  | createCrypto u inv a amount t =>
    exact ⟨forwardOn_refl _ _, forwardOn_append _ _ _⟩
  | adminConfirm pid now =>
    constructor
    · rcases adminConfirmStep_payments config st pid now with he | he <;> rw [payStep, he]
      · exact forwardOn_refl _ _
      · exact confirm_payment_forward st.payments pid now hwf
    · rw [payStep, adminConfirmStep_cryptos]
      exact forwardOn_refl _ _
  | platformConfirm pid now =>
    constructor
    · rcases platformConfirmStep_payments config st pid now with he | he <;> rw [payStep, he]
      · exact forwardOn_refl _ _
      · exact confirm_payment_forward st.payments pid now hwf
    · rw [payStep, platformConfirmStep_cryptos]
      exact forwardOn_refl _ _
  | pollCrypto oracle now =>
    constructor
    · rw [payStep, checkPendingCryptoPayments, pollFold_payments]
      exact forwardOn_refl _ _
    · rw [payStep, checkPendingCryptoPayments]
      apply pollFold_forward
      · intro p hp c hc hcp
        have hppend : p.status = "pending" ∧ p ∈ st.cryptos := by
          unfold get_pending_crypto_payments at hp
          have := List.mem_filter.1 hp
          exact ⟨by simpa using this.2, this.1⟩
        have : c = p :=
          List.inj_on_of_nodup_map hnodup hc hppend.2 hcp
        rw [this]
        exact hppend.1
      · have hsub : (get_pending_crypto_payments st.cryptos).Sublist st.cryptos :=
          List.filter_sublist st.cryptos
        exact List.Nodup.sublist (List.Sublist.map _ hsub) hnodup

/-- Witness for `payment_status_forward`: first operation from the fresh
database. -/
theorem payment_status_forward_witness :
    ForwardOn Payment.status initLedger.payments
      (payStep {} initLedger (.createPay 7 1000 "club" "card")).payments
    ∧ ForwardOn CryptoPayment.status initLedger.cryptos
      (payStep {} initLedger (.createPay 7 1000 "club" "card")).cryptos :=
  payment_status_forward {} initLedger (.createPay 7 1000 "club" "card")
    ReachableLedger.init trivial

/-! Referral-link round trip (C10).  `utils.py` builds the link with
`base64.urlsafe_b64encode(str(user_id).encode()).decode().rstrip('=')`
and decodes it with `urlsafe_b64decode` after re-adding
`'=' * (4 - len % 4)` characters — four of them when the length is
already a multiple of four, which CPython's default (non-strict) decoder
accepts by ignoring everything from the first `'='` on.  Bytes are
modelled as natural numbers below 256. -/

/-- URL-safe base64 alphabet used by `base64.urlsafe_b64encode`. -/
def b64alphabet : List Char :=
  "ABCDEFGHIJKLMNOPQRSTUVWXYZabcdefghijklmnopqrstuvwxyz0123456789-_".toList

/-- Character for a six-bit group. -/
def sextetToChar (n : Nat) : Char := b64alphabet.getD n '='

/-- Six-bit group for a character, `none` outside the alphabet. -/
def charToSextet (c : Char) : Option Nat := b64alphabet.findIdx? (fun a => a == c)

/-- Six-bit groups of a byte string (no padding): three bytes make four
groups; a trailing byte or byte pair contributes two or three groups with
zero-filled low bits. -/
def encB : List Nat → List Nat
  | [] => []
  | [a] => [a / 4, a % 4 * 16]
  | [a, b] => [a / 4, a % 4 * 16 + b / 16, b % 16 * 4]
  | a :: b :: c :: rest =>
      a / 4 :: (a % 4 * 16 + b / 16) :: (b % 16 * 4 + c / 64) :: c % 64 :: encB rest

/-- Bytes from six-bit groups; a single leftover group is an error
(CPython: "invalid base64-encoded string"), leftover low bits of a
partial group are discarded as CPython does. -/
def decB : List Nat → Option (List Nat)
  | [] => some []
  | [_] => none
  | [a, b] => some [a * 4 + b / 16]
  | [a, b, c] => some [a * 4 + b / 16, b % 16 * 16 + c / 4]
  | a :: b :: c :: d :: rest =>
      (decB rest).map (fun tl =>
        (a * 4 + b / 16) :: (b % 16 * 16 + c / 4) :: (c % 4 * 64 + d) :: tl)

/-- Output of `base64.urlsafe_b64encode`, `'='`-padded to a multiple of
four characters. -/
def b64encodeChars : List Nat → List Char
  | [] => []
  | [a] => [sextetToChar (a / 4), sextetToChar (a % 4 * 16), '=', '=']
  | [a, b] => [sextetToChar (a / 4), sextetToChar (a % 4 * 16 + b / 16),
      sextetToChar (b % 16 * 4), '=']
  | a :: b :: c :: rest =>
      sextetToChar (a / 4) :: sextetToChar (a % 4 * 16 + b / 16) ::
      sextetToChar (b % 16 * 4 + c / 64) :: sextetToChar (c % 64) :: b64encodeChars rest

/-- Python `str.rstrip('=')`. -/
def rstripEq (s : List Char) : List Char :=
  (s.reverse.dropWhile (fun c => c == '=')).reverse

/-- Behaviour of `base64.urlsafe_b64decode` in default (non-strict) mode
on inputs whose `'='` characters all trail the data (the only inputs the
claims exercise): everything from the first `'='` on is ignored, a
non-alphabet data character is an error, and the six-bit groups are
packed back into bytes. -/
def b64decodeChars (s : List Char) : Option (List Nat) :=
  match (s.takeWhile (fun c => !(c == '='))).mapM charToSextet with
  | none => none
  | some sextets => decB sextets

/-- ASCII bytes of `str(n)` for a natural number (most significant digit
first; `str(0)` is `"0"`). -/
def strDigits (n : Nat) : List Nat :=
  if n = 0 then [48] else (Nat.digits 10 n).reverse.map (fun d => d + 48)

/-- Python `int(bytes.decode())` restricted to the inputs arising here:
succeeds exactly on non-empty all-digit byte strings (`ValueError` and
`UnicodeDecodeError` both become `none`). -/
def parseNat (bs : List Nat) : Option Nat :=
  if bs.isEmpty then none
  else if bs.all (fun b => decide (48 ≤ b) && decide (b ≤ 57)) then
    some (bs.foldl (fun acc b => acc * 10 + (b - 48)) 0)
  else none

/-- Value of the `start` parameter embedded in the link `utils.py`
`generate_ref_link` produces: `ref_` followed by the `'='`-stripped
url-safe base64 encoding of the decimal user id. -/
def generate_ref_link_start_param (user_id : Nat) : List Char :=
  'r' :: 'e' :: 'f' :: '_' :: rstripEq (b64encodeChars (strDigits user_id))

/-- Full link returned by `utils.py` `generate_ref_link`. -/
def generate_ref_link (bot_username : List Char) (user_id : Nat) : List Char :=
  "https://t.me/".toList ++ bot_username ++ "?start=".toList
    ++ generate_ref_link_start_param user_id

/-- Translation of `utils.py` `extract_referrer_id`: check the `ref_`
marker, re-pad with `'=' * (4 - len % 4)`, base64-decode, parse the
decimal; any failure yields `none`. -/
def extract_referrer_id (start_param : List Char) : Option Nat :=
  if start_param.take 4 = ['r', 'e', 'f', '_'] then
    let encoded_id := start_param.drop 4
    let padding := List.replicate (4 - encoded_id.length % 4) '='
    match b64decodeChars (encoded_id ++ padding) with
    | none => none
    | some bytes => parseNat bytes
  else none

lemma charToSextet_sextetToChar :
    ∀ n < 64, charToSextet (sextetToChar n) = some n := by decide

lemma sextetToChar_ne : ∀ n < 64, (sextetToChar n == '=') = false := by decide

lemma decB_encB : ∀ bs : List Nat, (∀ x ∈ bs, x < 256) →
    decB (encB bs) = some bs := by
  intro bs
  induction bs using encB.induct with
  | case1 =>
    intro _
    rfl
  | case2 a =>
    intro h
    have ha : a < 256 := h a (by simp)
    simp [encB, decB]
    omega
  | case3 a b =>
    intro h
    have ha : a < 256 := h a (by simp)
    have hb : b < 256 := h b (by simp)
    simp [encB, decB]
    constructor <;> omega
  | case4 a b c rest ih =>
    intro h
    have ha : a < 256 := h a (by simp)
    have hb : b < 256 := h b (by simp)
    have hc : c < 256 := h c (by simp)
    have hrest := ih (fun x hx => h x (by simp [hx]))
    simp [encB, decB, hrest]
    refine ⟨?_, ?_, ?_⟩ <;> omega

lemma encB_lt64 : ∀ bs : List Nat, (∀ x ∈ bs, x < 256) →
    ∀ s ∈ encB bs, s < 64 := by
  intro bs
  induction bs using encB.induct with
  | case1 =>
    intro _ s hs
    cases hs
  | case2 a =>
    intro h s hs
    have ha : a < 256 := h a (by simp)
    simp [encB] at hs
    rcases hs with rfl | rfl <;> omega
  | case3 a b =>
    intro h s hs
    have ha : a < 256 := h a (by simp)
    have hb : b < 256 := h b (by simp)
    simp [encB] at hs
    rcases hs with rfl | rfl | rfl <;> omega
  | case4 a b c rest ih =>
    intro h s hs
    have ha : a < 256 := h a (by simp)
    have hb : b < 256 := h b (by simp)
    have hc : c < 256 := h c (by simp)
    simp [encB] at hs
    rcases hs with rfl | rfl | rfl | rfl | hs
    · omega
    · omega
    · omega
    · omega
    · exact ih (fun x hx => h x (by simp [hx])) s hs

lemma encB_ne_nil : ∀ bs : List Nat, bs ≠ [] → encB bs ≠ [] := by
  intro bs h
  rcases bs with _ | ⟨x, _ | ⟨y, _ | ⟨z, rest⟩⟩⟩ <;> simp_all [encB]

lemma rstripEq_append_of_ne_nil (xs ys : List Char) (h : rstripEq ys ≠ []) :
    rstripEq (xs ++ ys) = xs ++ rstripEq ys := by
  unfold rstripEq at h ⊢
  have h2 : ys.reverse.dropWhile (fun c => c == '=') ≠ [] := by
    intro he
    apply h
    rw [he]
    rfl
  rw [List.reverse_append, List.dropWhile_append,
    if_neg (by simpa using h2), List.reverse_append, List.reverse_reverse]

lemma rstrip_encode : ∀ bs : List Nat, (∀ x ∈ bs, x < 256) →
    rstripEq (b64encodeChars bs) = (encB bs).map sextetToChar := by
  intro bs
  induction bs using b64encodeChars.induct with
  | case1 =>
    intro _
    rfl
  | case2 a =>
    intro h
    have ha : a < 256 := h a (by simp)
    have h2 := sextetToChar_ne (a % 4 * 16) (by omega)
    simp [b64encodeChars, encB, rstripEq, List.dropWhile, h2]
  | case3 a b =>
    intro h
    have ha : a < 256 := h a (by simp)
    have hb : b < 256 := h b (by simp)
    have h3 := sextetToChar_ne (b % 16 * 4) (by omega)
    simp [b64encodeChars, encB, rstripEq, List.dropWhile, h3]
  | case4 a b c rest ih =>
    intro h
    have ha : a < 256 := h a (by simp)
    have hb : b < 256 := h b (by simp)
    have hc : c < 256 := h c (by simp)
    have hrest := ih (fun x hx => h x (by simp [hx]))
    by_cases hnil : rest = []
    · subst hnil
      have h4 := sextetToChar_ne (c % 64) (by omega)
      simp [b64encodeChars, encB, rstripEq, List.dropWhile, h4]
    · have hchunk : b64encodeChars (a :: b :: c :: rest)
          = [sextetToChar (a / 4), sextetToChar (a % 4 * 16 + b / 16),
             sextetToChar (b % 16 * 4 + c / 64), sextetToChar (c % 64)]
            ++ b64encodeChars rest := by
        rcases rest with _ | ⟨x, rest⟩
        · exact absurd rfl hnil
        · rfl
      rw [hchunk, rstripEq_append_of_ne_nil, hrest]
      · simp [encB]
      · rw [hrest]
        simp
        exact encB_ne_nil rest hnil

lemma mapM_sextetToChar : ∀ l : List Nat, (∀ s ∈ l, s < 64) →
    (l.map sextetToChar).mapM charToSextet = some l := by
  intro l
  induction l with
  | nil =>
    intro _
    rfl
  | cons s l ih =>
    intro h
    have hs := charToSextet_sextetToChar s (h s (by simp))
    simp only [List.map_cons, List.mapM_cons, hs, Option.bind_eq_bind,
      Option.some_bind, ih (fun x hx => h x (by simp [hx]))]
    rfl

lemma takeWhile_all_append (p : Char → Bool) (xs ys : List Char)
    (h : ∀ x ∈ xs, p x = true) :
    List.takeWhile p (xs ++ ys) = xs ++ List.takeWhile p ys := by
  induction xs with
  | nil => rfl
  | cons x xs ih =>
    rw [List.cons_append, List.takeWhile_cons, if_pos (h x (by simp)),
      ih (fun a ha => h a (by simp [ha]))]
    rfl

lemma takeWhile_replicate (k : Nat) :
    List.takeWhile (fun c => !(c == '=')) (List.replicate k '=') = [] := by
  cases k with
  | zero => rfl
  | succ n => simp [List.replicate_succ, List.takeWhile_cons]

lemma foldr_ofDigits (l : List Nat) :
    l.foldr (fun d acc => acc * 10 + d) 0 = Nat.ofDigits 10 l := by
  induction l with
  | nil => simp [Nat.ofDigits]
  | cons d l ih =>
    simp [Nat.ofDigits_cons, ih]
    ring

lemma parseNat_strDigits (n : Nat) : parseNat (strDigits n) = some n := by
  by_cases h0 : n = 0
  · subst h0
    decide
  · have hdig : ∀ d ∈ Nat.digits 10 n, d < 10 :=
      fun d hd => Nat.digits_lt_base (by norm_num) hd
    unfold strDigits parseNat
    rw [if_neg h0]
    rw [if_neg (by
      simp only [List.isEmpty_iff]
      intro he
      exact Nat.digits_ne_nil_iff_ne_zero.2 h0 (by simpa using he))]
    rw [if_pos (by
      rw [List.all_eq_true]
      intro b hb
      simp only [List.mem_map, List.mem_reverse] at hb
      obtain ⟨d, hd, rfl⟩ := hb
      have := hdig d hd
      simp
      omega)]
    congr 1
    rw [List.map_reverse, List.foldl_reverse, List.foldr_map]
    simp only [Nat.add_sub_cancel]
    rw [foldr_ofDigits, Nat.ofDigits_digits]

/-- C10: for every user id — of any decimal length, including those
whose stripped encoding has length divisible by four, where the code
re-adds four `'='` characters — extracting the referrer id from the
`start` parameter embedded in the generated referral link returns
exactly that user id; the second conjunct records how the parameter sits
inside the full link. -/
theorem ref_link_roundtrip (user_id : Nat) :
    extract_referrer_id (generate_ref_link_start_param user_id) = some user_id
    ∧ ∀ bot_username : List Char,
        generate_ref_link bot_username user_id
          = "https://t.me/".toList ++ bot_username ++ "?start=".toList
            ++ generate_ref_link_start_param user_id := by
  refine ⟨?_, fun _ => rfl⟩
  have hdigbound : ∀ x ∈ strDigits user_id, 48 ≤ x ∧ x ≤ 57 := by
    intro x hx
    unfold strDigits at hx
    by_cases h0 : user_id = 0
    · rw [if_pos h0] at hx
      simp at hx
      omega
    · rw [if_neg h0] at hx
      simp only [List.mem_map, List.mem_reverse] at hx
      obtain ⟨d, hd, rfl⟩ := hx
      have := Nat.digits_lt_base (by norm_num) hd
      omega
  have hbytes : ∀ x ∈ strDigits user_id, x < 256 := by
    intro x hx
    have := hdigbound x hx
    omega
  unfold extract_referrer_id generate_ref_link_start_param
  have hcond : List.take 4 ('r' :: 'e' :: 'f' :: '_'
      :: rstripEq (b64encodeChars (strDigits user_id))) = ['r', 'e', 'f', '_'] := rfl
  rw [if_pos hcond]
  have hdrop : ('r' :: 'e' :: 'f' :: '_'
      :: rstripEq (b64encodeChars (strDigits user_id))).drop 4
      = rstripEq (b64encodeChars (strDigits user_id)) := rfl
  simp only [hdrop]
  rw [rstrip_encode _ hbytes]
  unfold b64decodeChars
  rw [takeWhile_all_append _ _ _ (by
    intro x hx
    simp only [List.mem_map] at hx
    obtain ⟨s, hs, rfl⟩ := hx
    have := sextetToChar_ne s (encB_lt64 _ hbytes s hs)
    simp [this])]
  rw [takeWhile_replicate, List.append_nil]
  rw [mapM_sextetToChar _ (encB_lt64 _ hbytes)]
  simp only
  rw [decB_encB _ hbytes]
  exact parseNat_strDigits user_id

end Xtansion
